import Mathlib

/-!
Verification of the propositional-logic entailment checker in
`Decision_making.py`.

The Python program represents propositional sentences as an expression tree
with five variants (`Symbol`, `Not`, `And`, `Or`, `Implication`) and decides
entailment of a query from a knowledge base by enumerating all truth
assignments (`model_check`).  This file gives a shallow embedding of that
program: every method that can raise a Python exception is embedded as a
function into `Except String _`, where `.error` models a raised exception.
Python `dict` models are embedded as association lists, Python `set`s of
symbol names as `Finset String`.
-/

/-- The five concrete sentence variants of the Python expression tree
(classes `Symbol`, `Not`, `And`, `Or`, `Implication`).  `And`/`Or` take an
ordered sequence of operands, exactly as the Python variadic constructors
store `list(conjuncts)` / `list(disjuncts)`. -/
inductive Sentence where
  | Symbol (name : String)
  | Not (operand : Sentence)
  | And (conjuncts : List Sentence)
  | Or (disjuncts : List Sentence)
  | Implication (antecedent consequent : Sentence)

/-- A truth assignment: the Python `model` dict mapping symbol names to
booleans, embedded as an association list queried with `List.lookup`. -/
abbrev Model := List (String × Bool)

/-- A Python value passed as an operand to a compound constructor: either an
actual `Sentence` instance or some other Python object (tagged by a string so
distinct non-Sentence values can be represented). -/
inductive PyVal where
  | sentence (s : Sentence)
  | nonSentence (tag : String)

/-- Whether the Python value is an instance of `Sentence`
(`isinstance(sentence, Sentence)`). -/
def PyVal.isSentence : PyVal → Bool
  | .sentence _ => true
  | .nonSentence _ => false

/-- `Sentence.validate` (line 16-19): raises
`TypeError("must be a logical sentence")` when the argument is not a
`Sentence`. -/
def Sentence.validate (v : PyVal) : Except String Unit :=
  if v.isSentence then .ok () else .error "must be a logical sentence"

/-- The `for`-loop of `And.__init__`/`Or.__init__` validating each operand in
order; the first failure propagates. -/
def validateList : List PyVal → Except String Unit
  | [] => .ok ()
  | v :: rest => do
    Sentence.validate v
    validateList rest

/-- Extract the `Sentence` from a validated operand. -/
def PyVal.asSentence : PyVal → Option Sentence
  | .sentence s => some s
  | .nonSentence _ => none

/-- `Not.__init__` (line 69-71): validates the operand, then stores it. -/
def NotInit (operand : PyVal) : Except String Sentence := do
  Sentence.validate operand
  match operand with
  | .sentence s => .ok (.Not s)
  | .nonSentence _ => .error "must be a logical sentence"

/-- `And.__init__` (line 90-93): validates every conjunct in order, then
stores the operand list. -/
def AndInit (conjuncts : List PyVal) : Except String Sentence := do
  validateList conjuncts
  .ok (.And (conjuncts.filterMap PyVal.asSentence))

/-- `Or.__init__` (line 117-120): validates every disjunct in order, then
stores the operand list. -/
def OrInit (disjuncts : List PyVal) : Except String Sentence := do
  validateList disjuncts
  .ok (.Or (disjuncts.filterMap PyVal.asSentence))

/-- `Implication.__init__` (line 144-148): validates antecedent then
consequent, then stores both. -/
def ImplicationInit (antecedent consequent : PyVal) : Except String Sentence := do
  Sentence.validate antecedent
  Sentence.validate consequent
  match antecedent, consequent with
  | .sentence a, .sentence c => .ok (.Implication a c)
  | _, _ => .error "must be a logical sentence"

/-- Methods of the base `Sentence` class itself (lines 5-14), as invoked on a
bare `Sentence()` instance: `evaluate` raises
`Exception("nothing to evaluate")`, while `formula` returns the empty string
and `symbols` returns the empty set without raising. -/
def SentenceBase.evaluate (_model : Model) : Except String Bool :=
  .error "nothing to evaluate"

/-- `formula` of the base `Sentence` class (line 10-11): returns `""`. -/
def SentenceBase.formula : Except String String := .ok ""

/-- `symbols` of the base `Sentence` class (line 13-14): returns `set()`. -/
def SentenceBase.symbols : Except String (Finset String) := .ok ∅

/-- The inner `balanced` helper of `Sentence.parenthesize` (line 23-32),
walking the characters with a running open-parenthesis count. -/
def balancedFrom : List Char → Nat → Bool
  | [], count => count == 0
  | c :: rest, count =>
    if c = '(' then balancedFrom rest (count + 1)
    else if c = ')' then
      if count ≤ 0 then false else balancedFrom rest (count - 1)
    else balancedFrom rest count

/-- Python `s.isalpha()`: true iff the string is nonempty and every character
is alphabetic.  `Char.isAlpha` agrees with Python on ASCII characters (the
only ones appearing in this repository); Python additionally accepts
non-ASCII Unicode letters. -/
def strIsAlpha (s : String) : Bool :=
  !s.toList.isEmpty && s.toList.all Char.isAlpha

/-- The third disjunct of `Sentence.parenthesize`'s condition (line 34):
`s[0] == "(" and s[-1] == ")" and balanced(s[1:-1])`. -/
def outerParenBalanced (s : String) : Bool :=
  s.toList.head? == some '(' && s.toList.getLast? == some ')'
    && balancedFrom ((s.toList.drop 1).dropLast) 0

/-- `Sentence.parenthesize` (line 21-38): returns `s` unchanged when it is
empty, purely alphabetic, or already outer-parenthesized with balanced
interior; otherwise wraps it in parentheses. -/
def Sentence.parenthesize (s : String) : String :=
  if s.toList.isEmpty || strIsAlpha s || outerParenBalanced s then s
  else "(" ++ s ++ ")"

mutual

/-- `evaluate` of the five concrete variants.  `Symbol` (line 55-59) looks up
its name and raises when absent; `Not` negates; `And` mirrors Python's
short-circuiting `all(...)`; `Or` mirrors `any(...)`; `Implication`
(line 158-160) mirrors `not a or c` with Python's short-circuit `or`. -/
def Sentence.evaluate : Sentence → Model → Except String Bool
  | .Symbol n, model =>
    match model.lookup n with
    | some b => .ok b
    | none => .error ("variable " ++ n ++ " not in model")
  | .Not a, model => do
    let b ← Sentence.evaluate a model
    .ok (!b)
  | .And cs, model => evaluateAll cs model
  | .Or ds, model => evaluateAny ds model
  | .Implication a c, model => do
    let b ← Sentence.evaluate a model
    if !b then .ok true else Sentence.evaluate c model

/-- Python `all(conjunct.evaluate(model) for conjunct in self.conjuncts)`
(line 104): short-circuits at the first false conjunct; vacuously true. -/
def evaluateAll : List Sentence → Model → Except String Bool
  | [], _ => .ok true
  | c :: rest, model => do
    let b ← Sentence.evaluate c model
    if b then evaluateAll rest model else .ok false

/-- Python `any(disjunct.evaluate(model) for disjunct in self.disjuncts)`
(line 131): short-circuits at the first true disjunct; vacuously false. -/
def evaluateAny : List Sentence → Model → Except String Bool
  | [], _ => .ok false
  | d :: rest, model => do
    let b ← Sentence.evaluate d model
    if b then .ok true else evaluateAny rest model

end

/-- Python `sep.join(pieces)`. -/
def joinSep (sep : String) : List String → String
  | [] => ""
  | [x] => x
  | x :: rest => x ++ sep ++ joinSep sep rest

mutual

/-- `formula` of the five concrete variants: `Symbol` renders its name;
`Not` (line 82-83) prefixes `¬`; `And` (line 106-110) renders a single
conjunct bare and otherwise joins parenthesized conjuncts with `" ∧ "`;
`Or` (line 133-137) likewise with separator `" ∨  "` (two trailing spaces,
exactly as in the source); `Implication` (line 162-163) joins the
parenthesized sides with `" => "`. -/
def Sentence.formula : Sentence → String
  | .Symbol n => n
  | .Not a => "¬" ++ Sentence.parenthesize (Sentence.formula a)
  | .And cs =>
    match formulaRawList cs with
    | [r] => r
    | rs => joinSep " ∧ " (rs.map Sentence.parenthesize)
  | .Or ds =>
    match formulaRawList ds with
    | [r] => r
    | rs => joinSep " ∨  " (rs.map Sentence.parenthesize)
  | .Implication a c =>
    Sentence.parenthesize (Sentence.formula a) ++ " => "
      ++ Sentence.parenthesize (Sentence.formula c)

/-- The list of child formulas of an `And`/`Or` node, in order. -/
def formulaRawList : List Sentence → List String
  | [] => []
  | s :: rest => Sentence.formula s :: formulaRawList rest

end

/-- Python `set.union(*sets)` applied to a list of sets (lines 113 and 140):
with no argument sets it raises
`TypeError: descriptor 'union' of 'set' object needs an argument`;
otherwise it folds union over the remaining sets from the first. -/
def setUnionStar : List (Finset String) → Except String (Finset String)
  | [] => .error "descriptor union of set object needs an argument"
  | s :: rest => .ok (rest.foldl (fun a b => a ∪ b) s)

mutual

/-- `symbols` of the five concrete variants: `Symbol` yields its singleton
name; `Not` defers to its operand; `And`/`Or` (lines 112-113, 139-140)
evaluate every child's symbol set and apply `set.union(*...)`, which fails on
zero children; `Implication` (line 165-166) takes the binary union. -/
def Sentence.symbols : Sentence → Except String (Finset String)
  | .Symbol n => .ok {n}
  | .Not a => Sentence.symbols a
  | .And cs => do
    let l ← symbolsList cs
    setUnionStar l
  | .Or ds => do
    let l ← symbolsList ds
    setUnionStar l
  | .Implication a c => do
    let sa ← Sentence.symbols a
    let sc ← Sentence.symbols c
    .ok (sa ∪ sc)

/-- The list comprehension `[child.symbols() for child in children]`:
collects each child's symbol set in order, propagating the first failure. -/
def symbolsList : List Sentence → Except String (List (Finset String))
  | [] => .ok []
  | s :: rest => do
    let x ← Sentence.symbols s
    let xs ← symbolsList rest
    .ok (x :: xs)

end

/-- Lexicographic comparison of character lists by code point, used to give
the embedded `model_check` a deterministic enumeration order of the symbol
set (Python's `set.pop` order is arbitrary but fixed within a run; the spec
notes any stable order is equivalent). -/
def charsLe : List Char → List Char → Bool
  | [], _ => true
  | _ :: _, [] => false
  | a :: as, b :: bs =>
    if a.toNat < b.toNat then true
    else if b.toNat < a.toNat then false
    else charsLe as bs

/-- Lexicographic order on strings derived from `charsLe`. -/
def strLe (a b : String) : Prop := charsLe a.toList b.toList = true

instance : DecidableRel strLe :=
  fun a b => instDecidableEqBool (charsLe a.toList b.toList) true

theorem charsLe_total (a b : List Char) : charsLe a b = true ∨ charsLe b a = true := by
  induction a generalizing b with
  | nil => left; rfl
  | cons x xs ih =>
    cases b with
    | nil => right; rfl
    | cons y ys =>
      simp only [charsLe]
      rcases Nat.lt_trichotomy x.toNat y.toNat with h | h | h
      · left; simp [h]
      · have h1 : ¬ x.toNat < y.toNat := by omega
        have h2 : ¬ y.toNat < x.toNat := by omega
        rcases ih ys with h3 | h3
        · left; simp [h1, h2, h3]
        · right; simp [h1, h2, h3]
      · right; simp [h, Nat.lt_asymm h]

theorem charsLe_trans (a : List Char) : ∀ b c, charsLe a b = true → charsLe b c = true →
    charsLe a c = true := by
  induction a with
  | nil => intro b c _ _; rfl
  | cons x xs ih =>
    intro b c h1 h2
    cases b with
    | nil => simp [charsLe] at h1
    | cons y ys =>
      cases c with
      | nil => simp [charsLe] at h2
      | cons z zs =>
        rcases Nat.lt_trichotomy x.toNat y.toNat with hxy | hxy | hxy
        · rcases Nat.lt_trichotomy y.toNat z.toNat with hyz | hyz | hyz
          · simp [charsLe, show x.toNat < z.toNat by omega]
          · simp [charsLe, show x.toNat < z.toNat by omega]
          · simp [charsLe, show ¬ y.toNat < z.toNat by omega,
              show z.toNat < y.toNat by omega] at h2
        · have e1 : ¬ x.toNat < y.toNat := by omega
          have e2 : ¬ y.toNat < x.toNat := by omega
          simp only [charsLe, e1, e2, if_false] at h1
          rcases Nat.lt_trichotomy y.toNat z.toNat with hyz | hyz | hyz
          · simp [charsLe, show x.toNat < z.toNat by omega]
          · have e3 : ¬ y.toNat < z.toNat := by omega
            have e4 : ¬ z.toNat < y.toNat := by omega
            simp only [charsLe, e3, e4, if_false] at h2
            simp only [charsLe, show ¬ x.toNat < z.toNat by omega,
              show ¬ z.toNat < x.toNat by omega, if_false]
            exact ih ys zs h1 h2
          · simp [charsLe, show ¬ y.toNat < z.toNat by omega,
              show z.toNat < y.toNat by omega] at h2
        · simp [charsLe, show ¬ x.toNat < y.toNat by omega,
            show y.toNat < x.toNat by omega] at h1

theorem charsLe_antisymm (a : List Char) : ∀ b, charsLe a b = true → charsLe b a = true →
    a = b := by
  induction a with
  | nil =>
    intro b _ h2
    cases b with
    | nil => rfl
    | cons y ys => simp [charsLe] at h2
  | cons x xs ih =>
    intro b h1 h2
    cases b with
    | nil => simp [charsLe] at h1
    | cons y ys =>
      rcases Nat.lt_trichotomy x.toNat y.toNat with hxy | hxy | hxy
      · simp [charsLe, show ¬ y.toNat < x.toNat by omega,
          show x.toNat < y.toNat by omega] at h2
      · have e1 : ¬ x.toNat < y.toNat := by omega
        have e2 : ¬ y.toNat < x.toNat := by omega
        simp only [charsLe, e1, e2, if_false] at h1 h2
        have hxy2 : x = y := by
          have h3 : Char.ofNat x.toNat = Char.ofNat y.toNat := by rw [hxy]
          rwa [Char.ofNat_toNat, Char.ofNat_toNat] at h3
        rw [hxy2, ih ys h1 h2]
      · simp [charsLe, show ¬ x.toNat < y.toNat by omega,
          show y.toNat < x.toNat by omega] at h1

instance : IsTotal String strLe := ⟨fun a b => charsLe_total a.toList b.toList⟩

instance : IsTrans String strLe := ⟨fun a b c => charsLe_trans a.toList b.toList c.toList⟩

instance : IsAntisymm String strLe :=
  ⟨fun a b h1 h2 => by
    have h3 := charsLe_antisymm a.toList b.toList h1 h2
    cases a; cases b
    exact congrArg String.mk h3⟩

/-- Deterministic enumeration of a finite set of symbol names as a sorted
list, modelling the (arbitrary but fixed) order in which Python's `set.pop`
drains the symbol set inside `check_all`. -/
def setToList (s : Finset String) : List String :=
  Quot.liftOn s.val (fun l => List.insertionSort strLe l) (fun l1 l2 h =>
    List.eq_of_perm_of_sorted
      ((List.perm_insertionSort strLe l1).trans
        ((Quotient.exact (Quot.sound h)).trans (List.perm_insertionSort strLe l2).symm))
      (List.sorted_insertionSort strLe l1)
      (List.sorted_insertionSort strLe l2))

theorem mem_setToList (s : Finset String) (n : String) : n ∈ setToList s ↔ n ∈ s := by
  rcases s with ⟨val, nd⟩
  induction val using Quot.ind with
  | _ l =>
    show n ∈ List.insertionSort strLe l ↔ _
    rw [(List.perm_insertionSort strLe l).mem_iff]
    exact Iff.rfl

theorem nodup_setToList (s : Finset String) : (setToList s).Nodup := by
  rcases s with ⟨val, nd⟩
  induction val using Quot.ind with
  | _ l =>
    show (List.insertionSort strLe l).Nodup
    exact (List.perm_insertionSort strLe l).nodup_iff.mpr nd

/-- The inner `check_all` of `model_check` (line 170-183): with no symbols
left, the model is complete, and the assignment contributes `query.evaluate`
when `knowledge.evaluate` holds and `True` vacuously otherwise; with symbols
remaining, one is popped and both boolean extensions are checked, combined
with Python's short-circuit `and`. -/
def check_all (knowledge query : Sentence) : List String → Model → Except String Bool
  | [], model => do
    let kb ← Sentence.evaluate knowledge model
    if kb then Sentence.evaluate query model else .ok true
  | p :: remaining, model => do
    let t ← check_all knowledge query remaining ((p, true) :: model)
    if t then check_all knowledge query remaining ((p, false) :: model)
    else .ok false

/-- `model_check` (line 169-186): unions the symbol sets of knowledge and
query and runs `check_all` over all complete assignments starting from the
empty model. -/
def model_check (knowledge query : Sentence) : Except String Bool := do
  let sk ← Sentence.symbols knowledge
  let sq ← Sentence.symbols query
  check_all knowledge query (setToList (sk ∪ sq)) []

/-- `Rain = Symbol("Rain")` (line 190). -/
def Rain : Sentence := .Symbol "Rain"

/-- `HeavyTraffic = Symbol("HeavyTraffic")` (line 191). -/
def HeavyTraffic : Sentence := .Symbol "HeavyTraffic"

/-- `EarlyMeeting = Symbol("EarlyMeeting")` (line 192). -/
def EarlyMeeting : Sentence := .Symbol "EarlyMeeting"

/-- `Strike = Symbol("Strike")` (line 193). -/
def Strike : Sentence := .Symbol "Strike"

/-- `Appointment = Symbol("Appointment")` (line 194). -/
def Appointment : Sentence := .Symbol "Appointment"

/-- `WFH = Symbol("WorkFromHome")` (line 198). -/
def WFH : Sentence := .Symbol "WorkFromHome"

/-- `Drive = Symbol("Drive")` (line 199). -/
def Drive : Sentence := .Symbol "Drive"

/-- `PublicTransport = Symbol("PublicTransport")` (line 200). -/
def PublicTransport : Sentence := .Symbol "PublicTransport"

/-- Rule 1 (line 206): if it is raining or there is an early meeting, work
from home. -/
def rule1 : Sentence := .Implication (.Or [Rain, EarlyMeeting]) WFH

/-- Rule 2 (line 209): if there is an appointment and no early meeting,
drive. -/
def rule2 : Sentence := .Implication (.And [Appointment, .Not EarlyMeeting]) Drive

/-- Rule 3 (line 212): if there is no strike and it is not raining, take
public transport. -/
def rule3 : Sentence := .Implication (.And [.Not Strike, .Not Rain]) PublicTransport

/-- `knowledge_base = And(rule1, rule2, rule3)` (line 215). -/
def knowledge_base : Sentence := .And [rule1, rule2, rule3]

/-- `query_wfh = WFH` (line 218). -/
def query_wfh : Sentence := WFH

/-- `query_drive = Drive` (line 219). -/
def query_drive : Sentence := Drive

/-- `query_public_transport = PublicTransport` (line 220). -/
def query_public_transport : Sentence := PublicTransport

mutual

/-- Python structural equality `__eq__` of the five variants (lines 46-47,
73-74, 95-96, 122-123, 150-153): same variant and recursively equal fields;
`And`/`Or` compare their operand lists elementwise and order-sensitively,
exactly as Python list equality does. -/
def pyEq : Sentence → Sentence → Bool
  | .Symbol a, .Symbol b => a == b
  | .Not a, .Not b => pyEq a b
  | .And as, .And bs => pyEqList as bs
  | .Or as, .Or bs => pyEqList as bs
  | .Implication a c, .Implication a2 c2 => pyEq a a2 && pyEq c c2
  | _, _ => false

/-- Python list equality over sentence lists: equal lengths and elementwise
`__eq__`. -/
def pyEqList : List Sentence → List Sentence → Bool
  | [], [] => true
  | a :: as, b :: bs => pyEq a b && pyEqList as bs
  | _, _ => false

end

/-- The tuple each `__hash__` method feeds to Python's `hash` (lines 49-50,
76-77, 98-101, 125-128, 155-156): `("symbol", name)`, `("not", h)`,
`("and", (h1, ..., hn))`, `("or", (h1, ..., hn))`, `("implies", h1, h2)`.
Within one interpreter run Python's `hash` is a fixed function of this
input, so two sentences have the same digest exactly when these inputs are
equal; the embedding therefore uses the input itself as the digest. -/
inductive PyHashInput where
  | hashSymbol (name : String)
  | hashNot (h : PyHashInput)
  | hashAnd (hs : List PyHashInput)
  | hashOr (hs : List PyHashInput)
  | hashImplies (a c : PyHashInput)

mutual

/-- `__hash__` of the five variants, as the hash input it constructs. -/
def pyHash : Sentence → PyHashInput
  | .Symbol n => .hashSymbol n
  | .Not a => .hashNot (pyHash a)
  | .And cs => .hashAnd (pyHashList cs)
  | .Or ds => .hashOr (pyHashList ds)
  | .Implication a c => .hashImplies (pyHash a) (pyHash c)

/-- The tuple of child hashes built by `And.__hash__`/`Or.__hash__`. -/
def pyHashList : List Sentence → List PyHashInput
  | [] => []
  | s :: rest => pyHash s :: pyHashList rest

end

mutual

theorem pyEq_iff : ∀ a b : Sentence, pyEq a b = true ↔ a = b
  | .Symbol a, .Symbol b => by
    simp only [pyEq, beq_iff_eq, Sentence.Symbol.injEq]
  | .Not a, .Not b => by
    simp only [pyEq, pyEq_iff a b, Sentence.Not.injEq]
  | .And as, .And bs => by
    simp only [pyEq, pyEqList_iff as bs, Sentence.And.injEq]
  | .Or as, .Or bs => by
    simp only [pyEq, pyEqList_iff as bs, Sentence.Or.injEq]
  | .Implication a c, .Implication a2 c2 => by
    simp only [pyEq, Bool.and_eq_true, pyEq_iff a a2, pyEq_iff c c2,
      Sentence.Implication.injEq]
  | .Symbol _, .Not _ => by simp [pyEq]
  | .Symbol _, .And _ => by simp [pyEq]
  | .Symbol _, .Or _ => by simp [pyEq]
  | .Symbol _, .Implication _ _ => by simp [pyEq]
  | .Not _, .Symbol _ => by simp [pyEq]
  | .Not _, .And _ => by simp [pyEq]
  | .Not _, .Or _ => by simp [pyEq]
  | .Not _, .Implication _ _ => by simp [pyEq]
  | .And _, .Symbol _ => by simp [pyEq]
  | .And _, .Not _ => by simp [pyEq]
  | .And _, .Or _ => by simp [pyEq]
  | .And _, .Implication _ _ => by simp [pyEq]
  | .Or _, .Symbol _ => by simp [pyEq]
  | .Or _, .Not _ => by simp [pyEq]
  | .Or _, .And _ => by simp [pyEq]
  | .Or _, .Implication _ _ => by simp [pyEq]
  | .Implication _ _, .Symbol _ => by simp [pyEq]
  | .Implication _ _, .Not _ => by simp [pyEq]
  | .Implication _ _, .And _ => by simp [pyEq]
  | .Implication _ _, .Or _ => by simp [pyEq]

theorem pyEqList_iff : ∀ as bs : List Sentence, pyEqList as bs = true ↔ as = bs
  | [], [] => by simp [pyEqList]
  | a :: as, b :: bs => by
    simp only [pyEqList, Bool.and_eq_true, pyEq_iff a b, pyEqList_iff as bs,
      List.cons.injEq]
  | [], _ :: _ => by simp [pyEqList]
  | _ :: _, [] => by simp [pyEqList]

end

mutual

/-- The mathematical truth value of a sentence under a total truth
assignment; this is the specification-side semantics (`¬`, `∧`, `∨`, and
material implication) against which `model_check` is compared. -/
def specTruth : Sentence → (String → Bool) → Bool
  | .Symbol n, f => f n
  | .Not a, f => !(specTruth a f)
  | .And cs, f => specTruthAll cs f
  | .Or ds, f => specTruthAny ds f
  | .Implication a c, f => !(specTruth a f) || specTruth c f

/-- Conjunction of the truth values of a list of sentences. -/
def specTruthAll : List Sentence → (String → Bool) → Bool
  | [], _ => true
  | c :: rest, f => specTruth c f && specTruthAll rest f

/-- Disjunction of the truth values of a list of sentences. -/
def specTruthAny : List Sentence → (String → Bool) → Bool
  | [], _ => false
  | d :: rest, f => specTruth d f || specTruthAny rest f

end

/-- Modelled from the spec: knowledge entails query iff every truth
assignment making the knowledge true also makes the query true.  Since a
sentence's truth value depends only on the symbols occurring in it
(`specTruth_congr`), quantifying over total assignments is the same as
quantifying over the complete assignments of the combined symbol set. -/
def entails (knowledge query : Sentence) : Prop :=
  ∀ f : String → Bool, specTruth knowledge f = true → specTruth query f = true

mutual

/-- The set of symbol names occurring in a sentence (specification-side:
total, with the empty union for zero-child nodes). -/
def namesOf : Sentence → Finset String
  | .Symbol n => {n}
  | .Not a => namesOf a
  | .And cs => namesOfList cs
  | .Or ds => namesOfList ds
  | .Implication a c => namesOf a ∪ namesOf c

/-- Union of the names of a list of sentences. -/
def namesOfList : List Sentence → Finset String
  | [] => ∅
  | s :: rest => namesOf s ∪ namesOfList rest

end

theorem exceptBind_ok_iff {α β : Type} (x : Except String α) (f : α → Except String β)
    (b : β) : (x >>= f) = .ok b ↔ ∃ a, x = .ok a ∧ f a = .ok b := by
  cases x with
  | error e => simp [Bind.bind, Except.bind]
  | ok a => simp [Bind.bind, Except.bind]

theorem foldl_union_eq (l : List (Finset String)) :
    ∀ a : Finset String, l.foldl (fun x y => x ∪ y) a = a ∪ l.foldr (fun x y => x ∪ y) ∅ := by
  induction l with
  | nil => intro a; simp
  | cons x rest ih =>
    intro a
    simp only [List.foldl_cons, List.foldr_cons, ih (a ∪ x), Finset.union_assoc]

theorem namesOfList_eq_foldr (l : List Sentence) :
    namesOfList l = (l.map namesOf).foldr (fun x y => x ∪ y) ∅ := by
  induction l with
  | nil => rfl
  | cons s rest ih => simp only [namesOfList, List.map_cons, List.foldr_cons, ih]

mutual

theorem symbols_eq_namesOf : ∀ (s : Sentence) (S : Finset String),
    Sentence.symbols s = .ok S → S = namesOf s
  | .Symbol n, S => by
    intro h
    simp only [Sentence.symbols, Except.ok.injEq] at h
    simp [namesOf, h.symm]
  | .Not a, S => by
    intro h
    exact symbols_eq_namesOf a S h
  | .And cs, S => by
    intro h
    simp only [Sentence.symbols] at h
    rw [exceptBind_ok_iff] at h
    obtain ⟨L, hL, hU⟩ := h
    have hmap := symbolsList_eq cs L hL
    cases L with
    | nil =>
      simp [setUnionStar] at hU
    | cons x rest =>
      simp only [setUnionStar, Except.ok.injEq] at hU
      have : cs.map namesOf = x :: rest := hmap.symm
      rw [namesOf, namesOfList_eq_foldr, this]
      simp only [List.foldr_cons, ← hU, foldl_union_eq]
  | .Or ds, S => by
    intro h
    simp only [Sentence.symbols] at h
    rw [exceptBind_ok_iff] at h
    obtain ⟨L, hL, hU⟩ := h
    have hmap := symbolsList_eq ds L hL
    cases L with
    | nil =>
      simp [setUnionStar] at hU
    | cons x rest =>
      simp only [setUnionStar, Except.ok.injEq] at hU
      have : ds.map namesOf = x :: rest := hmap.symm
      rw [namesOf, namesOfList_eq_foldr, this]
      simp only [List.foldr_cons, ← hU, foldl_union_eq]
  | .Implication a c, S => by
    intro h
    simp only [Sentence.symbols] at h
    rw [exceptBind_ok_iff] at h
    obtain ⟨sa, ha, h2⟩ := h
    rw [exceptBind_ok_iff] at h2
    obtain ⟨sc, hc, h3⟩ := h2
    simp only [Except.ok.injEq] at h3
    rw [namesOf, ← symbols_eq_namesOf a sa ha, ← symbols_eq_namesOf c sc hc, ← h3]

theorem symbolsList_eq : ∀ (l : List Sentence) (L : List (Finset String)),
    symbolsList l = .ok L → L = l.map namesOf
  | [], L => by
    intro h
    simp only [symbolsList, Except.ok.injEq] at h
    simp [h.symm]
  | s :: rest, L => by
    intro h
    simp only [symbolsList] at h
    rw [exceptBind_ok_iff] at h
    obtain ⟨x, hx, h2⟩ := h
    rw [exceptBind_ok_iff] at h2
    obtain ⟨xs, hxs, h3⟩ := h2
    simp only [Except.ok.injEq] at h3
    rw [List.map_cons, ← symbols_eq_namesOf s x hx, ← symbolsList_eq rest xs hxs, ← h3]

end

mutual

theorem specTruth_congr : ∀ (s : Sentence) (f g : String → Bool),
    (∀ n ∈ namesOf s, f n = g n) → specTruth s f = specTruth s g
  | .Symbol n, f, g => fun h => h n (by simp [namesOf])
  | .Not a, f, g => fun h => by
    simp only [specTruth, specTruth_congr a f g h]
  | .And cs, f, g => fun h => specTruthAll_congr cs f g h
  | .Or ds, f, g => fun h => specTruthAny_congr ds f g h
  | .Implication a c, f, g => fun h => by
    have ha := specTruth_congr a f g (fun n hn => h n (by simp [namesOf, hn]))
    have hc := specTruth_congr c f g (fun n hn => h n (by simp [namesOf, hn]))
    simp only [specTruth, ha, hc]

theorem specTruthAll_congr : ∀ (l : List Sentence) (f g : String → Bool),
    (∀ n ∈ namesOfList l, f n = g n) → specTruthAll l f = specTruthAll l g
  | [], _, _ => fun _ => rfl
  | c :: rest, f, g => fun h => by
    have hc := specTruth_congr c f g (fun n hn => h n (by simp [namesOfList, hn]))
    have hr := specTruthAll_congr rest f g (fun n hn => h n (by simp [namesOfList, hn]))
    simp only [specTruthAll, hc, hr]

theorem specTruthAny_congr : ∀ (l : List Sentence) (f g : String → Bool),
    (∀ n ∈ namesOfList l, f n = g n) → specTruthAny l f = specTruthAny l g
  | [], _, _ => fun _ => rfl
  | d :: rest, f, g => fun h => by
    have hd := specTruth_congr d f g (fun n hn => h n (by simp [namesOfList, hn]))
    have hr := specTruthAny_congr rest f g (fun n hn => h n (by simp [namesOfList, hn]))
    simp only [specTruthAny, hd, hr]

end

mutual

theorem evaluate_ok : ∀ (s : Sentence) (m : Model) (f : String → Bool),
    (∀ n ∈ namesOf s, m.lookup n = some (f n)) →
    Sentence.evaluate s m = .ok (specTruth s f)
  | .Symbol n, m, f => fun h => by
    have hn := h n (by simp [namesOf])
    simp [Sentence.evaluate, hn, specTruth]
  | .Not a, m, f => fun h => by
    have ha := evaluate_ok a m f h
    simp [Sentence.evaluate, ha, Bind.bind, Except.bind, specTruth]
  | .And cs, m, f => fun h => evaluateAll_ok cs m f h
  | .Or ds, m, f => fun h => evaluateAny_ok ds m f h
  | .Implication a c, m, f => fun h => by
    have ha := evaluate_ok a m f (fun n hn => h n (by simp [namesOf, hn]))
    have hc := evaluate_ok c m f (fun n hn => h n (by simp [namesOf, hn]))
    simp only [Sentence.evaluate, ha, Bind.bind, Except.bind]
    cases hsa : specTruth a f <;> simp [specTruth, hsa, hc]

theorem evaluateAll_ok : ∀ (l : List Sentence) (m : Model) (f : String → Bool),
    (∀ n ∈ namesOfList l, m.lookup n = some (f n)) →
    evaluateAll l m = .ok (specTruthAll l f)
  | [], _, _ => fun _ => rfl
  | c :: rest, m, f => fun h => by
    have hc := evaluate_ok c m f (fun n hn => h n (by simp [namesOfList, hn]))
    have hr := evaluateAll_ok rest m f (fun n hn => h n (by simp [namesOfList, hn]))
    simp only [evaluateAll, hc, Bind.bind, Except.bind]
    cases hsc : specTruth c f <;> simp [specTruthAll, hsc, hr]

theorem evaluateAny_ok : ∀ (l : List Sentence) (m : Model) (f : String → Bool),
    (∀ n ∈ namesOfList l, m.lookup n = some (f n)) →
    evaluateAny l m = .ok (specTruthAny l f)
  | [], _, _ => fun _ => rfl
  | d :: rest, m, f => fun h => by
    have hd := evaluate_ok d m f (fun n hn => h n (by simp [namesOfList, hn]))
    have hr := evaluateAny_ok rest m f (fun n hn => h n (by simp [namesOfList, hn]))
    simp only [evaluateAny, hd, Bind.bind, Except.bind]
    cases hsd : specTruth d f <;> simp [specTruthAny, hsd, hr]

end

theorem check_all_ok (knowledge query : Sentence) :
    ∀ (syms : List String) (m : Model),
      syms.Nodup →
      (∀ n ∈ syms, m.lookup n = none) →
      (∀ n, n ∈ namesOf knowledge ∪ namesOf query →
        n ∈ syms ∨ (m.lookup n).isSome = true) →
      ∃ b, check_all knowledge query syms m = .ok b ∧
        (b = true ↔ ∀ f : String → Bool,
          (∀ n bv, m.lookup n = some bv → f n = bv) →
          specTruth knowledge f = true → specTruth query f = true) := by
  intro syms
  induction syms with
  | nil =>
    intro m _ _ hcov
    have hbound : ∀ n, n ∈ namesOf knowledge ∪ namesOf query →
        (m.lookup n).isSome = true := by
      intro n hn
      rcases hcov n hn with h | h
      · simp at h
      · exact h
    have hlook : ∀ n, n ∈ namesOf knowledge ∪ namesOf query →
        m.lookup n = some ((m.lookup n).getD false) := by
      intro n hn
      obtain ⟨v, hv⟩ := Option.isSome_iff_exists.mp (hbound n hn)
      rw [hv]; rfl
    have hk := evaluate_ok knowledge m (fun n => (m.lookup n).getD false)
      (fun n hn => hlook n (Finset.mem_union_left _ hn))
    have hq := evaluate_ok query m (fun n => (m.lookup n).getD false)
      (fun n hn => hlook n (Finset.mem_union_right _ hn))
    have hagree : ∀ f : String → Bool, (∀ n bv, m.lookup n = some bv → f n = bv) →
        specTruth knowledge f = specTruth knowledge (fun n => (m.lookup n).getD false) ∧
        specTruth query f = specTruth query (fun n => (m.lookup n).getD false) := by
      intro f hf
      constructor
      · refine specTruth_congr knowledge f _ (fun n hn => ?_)
        obtain ⟨v, hv⟩ := Option.isSome_iff_exists.mp (hbound n (Finset.mem_union_left _ hn))
        rw [hf n v hv, hv]
        rfl
      · refine specTruth_congr query f _ (fun n hn => ?_)
        obtain ⟨v, hv⟩ := Option.isSome_iff_exists.mp (hbound n (Finset.mem_union_right _ hn))
        rw [hf n v hv, hv]
        rfl
    cases hKB : specTruth knowledge (fun n => (m.lookup n).getD false) with
    | true =>
      refine ⟨specTruth query (fun n => (m.lookup n).getD false), ?_, ?_⟩
      · simp [check_all, hk, Bind.bind, Except.bind, hKB, hq]
      · constructor
        · intro hQ f hf hkf
          rcases hagree f hf with ⟨_, h2⟩
          rw [h2, hQ]
        · intro hAll
          exact hAll (fun n => (m.lookup n).getD false)
            (fun n bv hv => by simp [hv]) hKB
    | false =>
      refine ⟨true, ?_, ?_⟩
      · simp [check_all, hk, Bind.bind, Except.bind, hKB]
      · constructor
        · intro _ f hf hkf
          rcases hagree f hf with ⟨h1, _⟩
          rw [h1, hKB] at hkf
          exact absurd hkf (by simp)
        · intro _; rfl
  | cons p rest ih =>
    intro m hnd hdisj hcov
    have hp : p ∉ rest := (List.nodup_cons.mp hnd).1
    have hndr : rest.Nodup := (List.nodup_cons.mp hnd).2
    have lookup_cons : ∀ (c : Bool) (n : String),
        ((p, c) :: m).lookup n = if n = p then some c else m.lookup n := by
      intro c n
      by_cases hnp : n = p
      · have hb : (n == p) = true := beq_iff_eq.mpr hnp
        simp [List.lookup, hb, hnp]
      · have hb : (n == p) = false := beq_eq_false_iff_ne.mpr hnp
        simp [List.lookup, hb, hnp]
    have hdisjC : ∀ (c : Bool), ∀ n ∈ rest, ((p, c) :: m).lookup n = none := by
      intro c n hn
      rw [lookup_cons]
      have hne : n ≠ p := fun h => hp (h ▸ hn)
      simp [hne, hdisj n (List.mem_cons_of_mem _ hn)]
    have hcovC : ∀ (c : Bool), ∀ n, n ∈ namesOf knowledge ∪ namesOf query →
        n ∈ rest ∨ (((p, c) :: m).lookup n).isSome = true := by
      intro c n hn
      rcases hcov n hn with h | h
      · rcases List.mem_cons.mp h with h1 | h1
        · right; rw [lookup_cons]; simp [h1]
        · left; exact h1
      · right; rw [lookup_cons]; by_cases hnp : n = p <;> simp [hnp, h]
    obtain ⟨t, ht, htiff⟩ := ih ((p, true) :: m) hndr (hdisjC true) (hcovC true)
    obtain ⟨u, hu, huiff⟩ := ih ((p, false) :: m) hndr (hdisjC false) (hcovC false)
    have hpm : m.lookup p = none := hdisj p (List.mem_cons_self p rest)
    have agree_of : ∀ (c : Bool) (f : String → Bool),
        (∀ n bv, ((p, c) :: m).lookup n = some bv → f n = bv) →
        (∀ n bv, m.lookup n = some bv → f n = bv) := by
      intro c f hf n bv hv
      apply hf
      rw [lookup_cons]
      have hne : n ≠ p := by
        intro h; rw [h, hpm] at hv; exact Option.noConfusion hv
      simp [hne, hv]
    have agree_to : ∀ (c : Bool) (f : String → Bool), f p = c →
        (∀ n bv, m.lookup n = some bv → f n = bv) →
        (∀ n bv, ((p, c) :: m).lookup n = some bv → f n = bv) := by
      intro c f hfp hf n bv hv
      rw [lookup_cons] at hv
      by_cases hnp : n = p
      · rw [if_pos hnp] at hv
        rw [hnp, hfp]
        exact (Option.some.injEq _ _ ▸ hv : c = bv)
      · rw [if_neg hnp] at hv
        exact hf n bv hv
    cases hT : t with
    | false =>
      refine ⟨false, ?_, ?_⟩
      · simp [check_all, ht, Bind.bind, Except.bind, hT]
      · constructor
        · intro hfalse; exact absurd hfalse (by simp)
        · intro hAll
          exfalso
          have : t = true := htiff.mpr (fun f hf => hAll f (agree_of true f hf))
          rw [hT] at this
          exact absurd this (by simp)
    | true =>
      refine ⟨u, ?_, ?_⟩
      · simp [check_all, ht, Bind.bind, Except.bind, hT, hu]
      · constructor
        · intro hu1 f hf hkf
          cases hfp : f p with
          | true => exact htiff.mp hT f (agree_to true f hfp hf) hkf
          | false => exact (huiff.mp hu1) f (agree_to false f hfp hf) hkf
        · intro hRHSm
          exact huiff.mpr (fun f hf => hRHSm f (agree_of false f hf))

theorem model_check_ok (knowledge query : Sentence) (sk sq : Finset String)
    (hk : Sentence.symbols knowledge = .ok sk)
    (hq : Sentence.symbols query = .ok sq) :
    ∃ b, model_check knowledge query = .ok b ∧
      (b = true ↔ entails knowledge query) := by
  have hksk := symbols_eq_namesOf knowledge sk hk
  have hqsq := symbols_eq_namesOf query sq hq
  obtain ⟨b, hb, hiff⟩ := check_all_ok knowledge query (setToList (sk ∪ sq)) []
    (nodup_setToList _)
    (fun n _ => rfl)
    (fun n hn => by
      left
      rw [mem_setToList, Finset.mem_union, hksk, hqsq]
      exact Finset.mem_union.mp hn)
  refine ⟨b, ?_, ?_⟩
  · simp only [model_check, hk, hq, Bind.bind, Except.bind]
    exact hb
  · rw [hiff]
    constructor
    · intro h f hkf
      exact h f (fun n bv hv => Option.noConfusion hv) hkf
    · intro h f _ hkf
      exact h f hkf

theorem model_check_ok_inv (knowledge query : Sentence) (b : Bool)
    (h : model_check knowledge query = .ok b) :
    ∃ sk sq, Sentence.symbols knowledge = .ok sk ∧ Sentence.symbols query = .ok sq := by
  simp only [model_check] at h
  rw [exceptBind_ok_iff] at h
  obtain ⟨sk, hsk, h2⟩ := h
  rw [exceptBind_ok_iff] at h2
  obtain ⟨sq, hsq, _⟩ := h2
  exact ⟨sk, sq, hsk, hsq⟩

theorem validateList_ok (vs : List PyVal) (h : ∀ v ∈ vs, v.isSentence = true) :
    validateList vs = .ok () := by
  induction vs with
  | nil => rfl
  | cons v rest ih =>
    have hv := h v (List.mem_cons_self v rest)
    simp [validateList, Sentence.validate, hv, Bind.bind, Except.bind,
      ih (fun w hw => h w (List.mem_cons_of_mem _ hw))]

theorem validateList_error (vs : List PyVal) (h : ∃ v ∈ vs, v.isSentence = false) :
    validateList vs = .error "must be a logical sentence" := by
  induction vs with
  | nil =>
    obtain ⟨v, hv, _⟩ := h
    exact absurd hv (List.not_mem_nil v)
  | cons v rest ih =>
    obtain ⟨w, hw, hws⟩ := h
    cases hv : v.isSentence with
    | false => simp [validateList, Sentence.validate, hv, Bind.bind, Except.bind]
    | true =>
      rcases List.mem_cons.mp hw with h1 | h1
      · rw [h1] at hws
        rw [hws] at hv
        exact absurd hv (by simp)
      · simp [validateList, Sentence.validate, hv, Bind.bind, Except.bind,
          ih ⟨w, h1, hws⟩]

/-- C1: `model_check(knowledge, query)` returns true iff every truth
assignment making the knowledge true also makes the query true.  The
hypotheses record that the two `symbols()` calls the claim mentions return
(they fail only on a zero-child `And`/`Or`, see C2).  `entails` quantifies
over total assignments, which by `specTruth_congr` is equivalent to
quantifying over the complete assignments of the combined symbol set, since
evaluation only reads symbols occurring in the sentences. -/
theorem claim_C1 (knowledge query : Sentence) (sk sq : Finset String)
    (hk : Sentence.symbols knowledge = .ok sk)
    (hq : Sentence.symbols query = .ok sq) :
    model_check knowledge query = .ok true ↔ entails knowledge query := by
  obtain ⟨b, hb, hiff⟩ := model_check_ok knowledge query sk sq hk hq
  rw [hb]
  constructor
  · intro h
    exact hiff.mp (Except.ok.inj h)
  · intro h
    rw [hiff.mpr h]

/-- Witness for C1 at a concrete input: a single symbol entails itself. -/
theorem claim_C1_witness : entails (.Symbol "A") (.Symbol "A") :=
  (claim_C1 (.Symbol "A") (.Symbol "A") {"A"} {"A"} rfl rfl).mp (by rfl)

/-- C2: the claim says zero-child `And().symbols()` and `Or().symbols()`
succeed with the empty set; the code instead calls `set.union(*[])`, which
raises a `TypeError`.  This theorem evaluates the embedded code at the
failing inputs. -/
theorem claim_C2 :
    Sentence.symbols (.And []) = .error "descriptor union of set object needs an argument" ∧
    Sentence.symbols (.Or []) = .error "descriptor union of set object needs an argument" :=
  ⟨rfl, rfl⟩

/-- C3: the claim (from the spec) expects `model_check(knowledge, WFH)` to be
true in the rainy scenario, but `model_check` never receives the scenario
model: `perform_model_check` ignores its `model` argument, so every query is
checked against the bare knowledge base alone and `WFH` is not entailed.
This theorem evaluates the embedded code: all three queries come out false
(the claim expects true, false, false). -/
theorem claim_C3 :
    model_check knowledge_base query_wfh = .ok false ∧
    model_check knowledge_base query_public_transport = .ok false ∧
    model_check knowledge_base query_drive = .ok false :=
  ⟨rfl, rfl, rfl⟩

/-- C4: `Symbol.evaluate` raises exactly when the name is absent from the
model, and returns the bound value (never a default) when present. -/
theorem claim_C4 (n : String) (m : Model) :
    (Sentence.evaluate (.Symbol n) m = .error ("variable " ++ n ++ " not in model") ↔
      m.lookup n = none) ∧
    (∀ bv, m.lookup n = some bv → Sentence.evaluate (.Symbol n) m = .ok bv) := by
  cases hv : m.lookup n with
  | none =>
    constructor
    · simp [Sentence.evaluate, hv]
    · intro bv h
      exact Option.noConfusion h
  | some v =>
    constructor
    · simp [Sentence.evaluate, hv]
    · intro bv h
      have hvb : v = bv := Option.some.inj h
      simp [Sentence.evaluate, hv, hvb]

/-- Witness for C4 at concrete inputs: lookup of `"A"` in the empty model
raises, and in a model binding `"A"` to true returns true. -/
theorem claim_C4_witness :
    Sentence.evaluate (.Symbol "A") [] = .error "variable A not in model" ∧
    Sentence.evaluate (.Symbol "A") [("A", true)] = .ok true :=
  ⟨(claim_C4 "A" []).1.mpr rfl, (claim_C4 "A" [("A", true)]).2 true rfl⟩

/-- Counterexample to C5: the claim says all three base-class methods fail
loudly, but `formula` and `symbols` on the base `Sentence` class return
normally (`""` and `set()`); only `evaluate` raises. -/
theorem claim_C5_counterexample :
    SentenceBase.formula = .ok "" ∧ SentenceBase.symbols = .ok (∅ : Finset String) :=
  ⟨rfl, rfl⟩

/-- C5 as amended: `evaluate` on the base abstraction raises
`"nothing to evaluate"` for every model, while `formula` and `symbols`
return the empty string and the empty set without error. -/
theorem claim_C5 :
    (∀ m : Model, SentenceBase.evaluate m = .error "nothing to evaluate") ∧
    SentenceBase.formula = .ok "" ∧ SentenceBase.symbols = .ok (∅ : Finset String) :=
  ⟨fun _ => rfl, rfl, rfl⟩

/-- C6: every compound constructor raises the validation `TypeError` when
some operand is not a `Sentence` and succeeds when all operands are
Sentences. -/
theorem claim_C6 :
    (∀ v : PyVal,
      (v.isSentence = false → NotInit v = .error "must be a logical sentence") ∧
      (v.isSentence = true → ∃ s, NotInit v = .ok s)) ∧
    (∀ vs : List PyVal,
      ((∃ v ∈ vs, v.isSentence = false) → AndInit vs = .error "must be a logical sentence") ∧
      ((∀ v ∈ vs, v.isSentence = true) → ∃ s, AndInit vs = .ok s)) ∧
    (∀ vs : List PyVal,
      ((∃ v ∈ vs, v.isSentence = false) → OrInit vs = .error "must be a logical sentence") ∧
      ((∀ v ∈ vs, v.isSentence = true) → ∃ s, OrInit vs = .ok s)) ∧
    (∀ a c : PyVal,
      ((a.isSentence = false ∨ c.isSentence = false) →
        ImplicationInit a c = .error "must be a logical sentence") ∧
      (a.isSentence = true → c.isSentence = true →
        ∃ s, ImplicationInit a c = .ok s)) := by
  refine ⟨fun v => ⟨?_, ?_⟩, fun vs => ⟨?_, ?_⟩, fun vs => ⟨?_, ?_⟩, fun a c => ⟨?_, ?_⟩⟩
  · intro h
    cases v with
    | sentence s => exact absurd h (by simp [PyVal.isSentence])
    | nonSentence t => rfl
  · intro h
    cases v with
    | sentence s => exact ⟨.Not s, rfl⟩
    | nonSentence t => exact absurd h (by simp [PyVal.isSentence])
  · intro h
    simp [AndInit, validateList_error vs h, Bind.bind, Except.bind]
  · intro h
    exact ⟨.And (vs.filterMap PyVal.asSentence),
      by simp [AndInit, validateList_ok vs h, Bind.bind, Except.bind]⟩
  · intro h
    simp [OrInit, validateList_error vs h, Bind.bind, Except.bind]
  · intro h
    exact ⟨.Or (vs.filterMap PyVal.asSentence),
      by simp [OrInit, validateList_ok vs h, Bind.bind, Except.bind]⟩
  · intro h
    cases a with
    | nonSentence t => rfl
    | sentence sa =>
      cases c with
      | nonSentence t => rfl
      | sentence sc =>
        rcases h with h | h <;> exact absurd h (by simp [PyVal.isSentence])
  · intro ha hc
    cases a with
    | nonSentence t => exact absurd ha (by simp [PyVal.isSentence])
    | sentence sa =>
      cases c with
      | nonSentence t => exact absurd hc (by simp [PyVal.isSentence])
      | sentence sc => exact ⟨.Implication sa sc, rfl⟩

/-- Witness for C6 at concrete inputs: a non-Sentence operand is rejected
and an all-Sentence operand list is accepted. -/
theorem claim_C6_witness :
    NotInit (.nonSentence "five") = .error "must be a logical sentence" ∧
    ∃ s, AndInit [.sentence (.Symbol "A")] = .ok s :=
  ⟨(claim_C6.1 (.nonSentence "five")).1 rfl,
   (claim_C6.2.1 [.sentence (.Symbol "A")]).2
     (fun v hv => by rw [List.mem_singleton.mp hv]; rfl)⟩

/-- C7: structural equality is an equivalence relation, distinguishes
distinct symbol names, and structurally equal sentences build identical hash
inputs (hence identical digests within a run). -/
theorem claim_C7 :
    (∀ a : Sentence, pyEq a a = true) ∧
    (∀ a b : Sentence, pyEq a b = pyEq b a) ∧
    (∀ a b c : Sentence, pyEq a b = true → pyEq b c = true → pyEq a c = true) ∧
    pyEq (.Symbol "A") (.Symbol "A") = true ∧
    pyEq (.Symbol "A") (.Symbol "B") = false ∧
    (∀ a b : Sentence, pyEq a b = true → pyHash a = pyHash b) := by
  refine ⟨fun a => (pyEq_iff a a).mpr rfl, fun a b => ?_,
    fun a b c h1 h2 => ?_, rfl, rfl, fun a b h => ?_⟩
  · by_cases h : a = b
    · rw [h]
    · have h1 : pyEq a b = false := by
        cases he : pyEq a b
        · rfl
        · exact absurd ((pyEq_iff a b).mp he) h
      have h2 : pyEq b a = false := by
        cases he : pyEq b a
        · rfl
        · exact absurd ((pyEq_iff b a).mp he).symm h
      rw [h1, h2]
  · exact (pyEq_iff a c).mpr (((pyEq_iff a b).mp h1).trans ((pyEq_iff b c).mp h2))
  · rw [(pyEq_iff a b).mp h]

/-- Witness for C7 at concrete inputs: transitivity and hash consistency
applied at `Symbol "A"`. -/
theorem claim_C7_witness :
    pyEq (.Symbol "A") (.Symbol "A") = true ∧
    pyHash (.Symbol "A") = pyHash (.Symbol "A") :=
  ⟨claim_C7.2.2.1 (.Symbol "A") (.Symbol "A") (.Symbol "A") (by rfl) (by rfl),
   claim_C7.2.2.2.2.2 (.Symbol "A") (.Symbol "A") (by rfl)⟩

/-- Counterexample to C8: `Symbol "A1"` is a single symbol, yet its
rendering inside a compound is parenthesized, because `parenthesize` keys on
`isalpha`, not on being a symbol.  The claim predicts `"A1 ∧ B"`. -/
theorem claim_C8_counterexample :
    Sentence.formula (.And [.Symbol "A1", .Symbol "B"]) = "(A1) ∧ B" ∧
    ("(A1) ∧ B" : String) ≠ "A1 ∧ B" :=
  ⟨rfl, by decide⟩

/-- C8 as amended: the connective tokens are prefix `¬`, infix `∧`, `∨`
(the source's separator carries two trailing spaces) and `=>`; a
sub-expression rendering is kept unparenthesized when it is purely
alphabetic (not merely when it is a single symbol) or already
outer-parenthesized with balanced interior, and is wrapped otherwise; the
`Or` sub-term of the claim's example is parenthesized. -/
theorem claim_C8 :
    (∀ a : Sentence, Sentence.formula (.Not a) =
      "¬" ++ Sentence.parenthesize (Sentence.formula a)) ∧
    (∀ a b : Sentence, Sentence.formula (.And [a, b]) =
      Sentence.parenthesize (Sentence.formula a) ++ " ∧ "
        ++ Sentence.parenthesize (Sentence.formula b)) ∧
    (∀ a b : Sentence, Sentence.formula (.Or [a, b]) =
      Sentence.parenthesize (Sentence.formula a) ++ " ∨  "
        ++ Sentence.parenthesize (Sentence.formula b)) ∧
    (∀ a c : Sentence, Sentence.formula (.Implication a c) =
      Sentence.parenthesize (Sentence.formula a) ++ " => "
        ++ Sentence.parenthesize (Sentence.formula c)) ∧
    (∀ s : String, strIsAlpha s = true → Sentence.parenthesize s = s) ∧
    (∀ s : String, outerParenBalanced s = true → Sentence.parenthesize s = s) ∧
    (∀ s : String, s ≠ "" → strIsAlpha s = false → outerParenBalanced s = false →
      Sentence.parenthesize s = "(" ++ s ++ ")") ∧
    Sentence.formula (.And [.Symbol "A", .Or [.Symbol "B", .Symbol "C"]])
      = "A ∧ (B ∨  C)" := by
  refine ⟨fun a => rfl, fun a b => rfl, fun a b => rfl, fun a c => rfl,
    fun s h => ?_, fun s h => ?_, fun s h0 h1 h2 => ?_, rfl⟩
  · simp [Sentence.parenthesize, h]
  · simp [Sentence.parenthesize, h]
  · have hE : s.toList.isEmpty = false := by
      cases s with
      | mk data =>
        cases data with
        | nil => exact absurd rfl h0
        | cons c cs => rfl
    simp only [Sentence.parenthesize]
    rw [hE, h1, h2]
    rfl

/-- Witness for C8 at concrete inputs: an alphabetic rendering is kept and a
non-alphabetic one is wrapped. -/
theorem claim_C8_witness :
    Sentence.parenthesize "A" = "A" ∧ Sentence.parenthesize "A1" = "(A1)" :=
  ⟨claim_C8.2.2.2.2.1 "A" (by rfl),
   claim_C8.2.2.2.2.2.2.1 "A1" (by decide) (by rfl) (by rfl)⟩

/-- C9: entailment monotonicity of `model_check` under conjunction of
queries. -/
theorem claim_C9 (K Q1 Q2 : Sentence)
    (h1 : model_check K Q1 = .ok true) (h2 : model_check K Q2 = .ok true) :
    model_check K (.And [Q1, Q2]) = .ok true := by
  obtain ⟨sk, s1, hsk, hs1⟩ := model_check_ok_inv K Q1 true h1
  obtain ⟨sk2, s2, hsk2, hs2⟩ := model_check_ok_inv K Q2 true h2
  have e1 : entails K Q1 := by
    obtain ⟨b, hb, hiff⟩ := model_check_ok K Q1 sk s1 hsk hs1
    rw [h1] at hb
    exact hiff.mp (Except.ok.inj hb).symm
  have e2 : entails K Q2 := by
    obtain ⟨b, hb, hiff⟩ := model_check_ok K Q2 sk2 s2 hsk2 hs2
    rw [h2] at hb
    exact hiff.mp (Except.ok.inj hb).symm
  have hsAnd : Sentence.symbols (.And [Q1, Q2]) = .ok (s1 ∪ s2) := by
    simp [Sentence.symbols, symbolsList, hs1, hs2, Bind.bind, Except.bind, setUnionStar]
  have eAnd : entails K (.And [Q1, Q2]) := by
    intro f hf
    simp [specTruth, specTruthAll, e1 f hf, e2 f hf]
  obtain ⟨b, hb, hiff⟩ := model_check_ok K (.And [Q1, Q2]) sk (s1 ∪ s2) hsk hsAnd
  rw [hiff.mpr eAnd] at hb
  exact hb

/-- Witness for C9 at concrete inputs. -/
theorem claim_C9_witness :
    model_check (.Symbol "A") (.And [.Symbol "A", .Symbol "A"]) = .ok true :=
  claim_C9 (.Symbol "A") (.Symbol "A") (.Symbol "A") (by rfl) (by rfl)

/-- Counterexample to C10: the name `"(x)"` is non-empty and not purely
alphabetic, yet rendering it inside a `Not` does not wrap it, because it is
already outer-parenthesized with balanced interior.  The claim predicts
`"¬((x))"`. -/
theorem claim_C10_counterexample :
    Sentence.formula (.Not (.Symbol "(x)")) = "¬(x)" ∧
    ("¬(x)" : String) ≠ "¬((x))" :=
  ⟨rfl, by decide⟩

/-- C10 as amended: a symbol whose name is non-empty, not purely alphabetic,
and not already outer-parenthesized with balanced interior is wrapped in
parentheses when rendered inside a compound. -/
theorem claim_C10 (name : String) (h0 : name ≠ "") (h1 : strIsAlpha name = false)
    (h2 : outerParenBalanced name = false) :
    Sentence.formula (.Not (.Symbol name)) = "¬(" ++ name ++ ")" := by
  have hE : name.toList.isEmpty = false := by
    cases name with
    | mk data =>
      cases data with
      | nil => exact absurd rfl h0
      | cons c cs => rfl
  show "¬" ++ Sentence.parenthesize name = "¬(" ++ name ++ ")"
  simp only [Sentence.parenthesize, hE, h1, h2, Bool.false_or]
  rw [if_neg Bool.false_ne_true, ← String.append_assoc, ← String.append_assoc]
  rw [show ("¬" : String) ++ "(" = "¬(" from rfl]

/-- Witness for C10 at a concrete input. -/
theorem claim_C10_witness : Sentence.formula (.Not (.Symbol "A1")) = "¬(A1)" := by
  rw [claim_C10 "A1" (by decide) (by rfl) (by rfl)]
  rfl
